import Mathlib

/-!
Verification development for the `condenser_rs` audio engine
(`src/condenser.rs`).

The engine is embedded shallowly: the `Condenser` struct becomes a Lean
structure parametrised over an ordered field `α` of sample values (the
Rust code uses `f32`; all claims under study are exact-value or structural
claims, so samples are modelled as elements of a linear ordered field,
instantiated at `ℚ` for executable witnesses and at `ℝ` for the
constructor, whose derived coefficients involve `exp`, `cos` and powers).

Rust operations that can panic (out-of-range slices, subtraction
underflow on `usize`, `%` by zero) are modelled as `Option`-returning
functions: `none` is a panic.  The `while` loop of `process_inplace` is
modelled with an explicit fuel parameter; exhausted fuel also yields
`none`, and the totality theorems show the chosen fuel is never
exhausted.
-/

set_option linter.unusedSectionVars false

/-- Controller phase, mirroring `enum State` in `condenser.rs`. -/
inductive State
  | FadeIn
  | Record
  | FadeOut
  | Idle
deriving DecidableEq, Repr

/-- Shallow embedding of `struct Condenser`.  Field names and order follow
the Rust source.  `buf` is the ring buffer `Vec<f32>`; its length equals
`max_frames` in every reachable state (the vector is allocated once as
`vec![0.0; max_frames]` and only ever overwritten in place). -/
structure Condenser (α : Type) where
  fs : ℕ
  th_lin : α
  dry_wet : α
  loop_mode : Bool
  warmup_frames : ℕ
  processed_frames : ℕ
  max_frames : ℕ
  buf : List α
  write_ptr : ℕ
  read_ptr : ℕ
  recorded_frames : ℕ
  state : State
  fade_len : ℕ
  fade_curve : List α
  fade_pos : ℕ
  rel_coef : α
  env : α
deriving Repr, DecidableEq

variable {α : Type} [LinearOrderedField α]

/-- Contents of the Rust slice `buf[s..e]` (panics are guarded at use
sites). -/
def listSlice (buf : List α) (s e : ℕ) : List α :=
  (buf.take e).drop s

/-- Overwrite `buf[s..s + data.length]` with `data`, i.e. the effect of
`buf[s..s+n].copy_from_slice(data)` (in-range use sites only). -/
def listWrite (buf : List α) (s : ℕ) (data : List α) : List α :=
  buf.take s ++ data ++ buf.drop (s + data.length)

namespace Condenser

/-- `Condenser::ring_write`.  `none` models a Rust panic: an
out-of-range slice (possible only when `data` is longer than the spare
ring capacity or the buffer length diverges from `max_frames`) or the
`end % self.max_frames` reduction with a zero modulus. -/
def ring_write (c : Condenser α) (data : List α) : Option (Condenser α) :=
  if c.loop_mode then some c else
  let n := data.length
  let e := c.write_ptr + n
  if e ≤ c.max_frames then
    if e ≤ c.buf.length ∧ c.max_frames ≠ 0 then
      some { c with
        buf := listWrite c.buf c.write_ptr data
        write_ptr := e % c.max_frames
        recorded_frames := min (max c.recorded_frames e) c.max_frames }
    else none
  else
    let first := c.max_frames - c.write_ptr
    if c.write_ptr ≤ c.max_frames ∧ c.buf.length = c.max_frames ∧
        n - first ≤ c.buf.length then
      some { c with
        buf := listWrite (listWrite c.buf c.write_ptr (data.take first)) 0
          (data.drop first)
        write_ptr := e % c.max_frames
        recorded_frames := min (max c.recorded_frames e) c.max_frames }
    else none

/-- `Condenser::ring_read`.  Returns the output samples and the updated
state; `none` models a panicking slice (a read that wraps past what the
single tail copy can serve, or an inconsistent `recorded_frames`). -/
def ring_read (c : Condenser α) (n : ℕ) : Option (List α × Condenser α) :=
  if c.recorded_frames = 0 then
    some (List.replicate n 0, c)
  else
    let L := c.recorded_frames
    let e := c.read_ptr + n
    if e ≤ L then
      if e ≤ c.buf.length then
        some (listSlice c.buf c.read_ptr e, { c with read_ptr := e % L })
      else none
    else
      let first := L - c.read_ptr
      if c.read_ptr ≤ L ∧ L ≤ c.buf.length ∧ n - first ≤ c.buf.length then
        some (listSlice c.buf c.read_ptr L ++ listSlice c.buf 0 (n - first),
          { c with read_ptr := e % L })
      else none

/-- Peak absolute amplitude of a segment:
`seg.iter().fold(0.0, |a,&b| a.max(b.abs()))`. -/
def segPeak (seg : List α) : α :=
  seg.foldl (fun a b => max a |b|) 0

/-- Envelope follower update over one segment: jump to the peak if it
exceeds the envelope, otherwise decay by `rel_coef ^ remain`
(`self.env = if peak > self.env { peak } else { self.env * self.rel_coef.powi(remain) }`). -/
def envStep (c : Condenser α) (seg : List α) (remain : ℕ) : α :=
  if c.env < segPeak seg then segPeak seg else c.env * c.rel_coef ^ remain

/-- The `while idx < n_total` loop body of `Condenser::process_inplace`,
as a fuel-indexed recursion.  One unit of fuel is one loop iteration;
`none` is either a panic inside the body or exhausted fuel (the totality
theorems show the fuel bound used by `process_inplace` never runs out).
The two sequential `match self.state` blocks of the source are fused:
the first block either breaks out of the loop (`Idle` below threshold)
or switches `Idle` to `FadeIn`, and the second block then dispatches on
the possibly-updated state. -/
def procLoop : ℕ → List α → Condenser α → ℕ → Option (Condenser α)
  | 0, _, _, _ => none
  | fuel + 1, block, c, idx =>
    if idx < block.length then
      let remain := block.length - idx
      let seg := block.drop idx
      let env1 := envStep c seg remain
      let c1 : Condenser α := { c with env := env1 }
      if c1.state = State.Idle ∧ ¬ c1.th_lin < c1.env then some c1
      else
        let c2 : Condenser α :=
          if c1.state = State.Idle then
            { c1 with state := State.FadeIn, fade_pos := 0 }
          else c1
        match c2.state with
        | State.FadeIn =>
          let span := min remain (c2.fade_len - c2.fade_pos)
          if c2.fade_pos + span ≤ c2.fade_curve.length then
            let fadeSlice := listSlice c2.fade_curve c2.fade_pos (c2.fade_pos + span)
            let data := List.zipWith (fun s f => s * f) (seg.take span) fadeSlice
            (c2.ring_write data).bind (fun c3 =>
              let fp := c2.fade_pos + span
              procLoop fuel block
                { c3 with
                  fade_pos := fp
                  state := if c2.fade_len ≤ fp then State.Record else State.FadeIn }
                (idx + span))
          else none
        | State.Record =>
          if c2.th_lin < c2.env then
            c2.ring_write seg
          else
            procLoop fuel block
              { c2 with state := State.FadeOut, fade_pos := 0 } idx
        | State.FadeOut =>
          let span := min remain (c2.fade_len - c2.fade_pos)
          if c2.fade_pos ≤ c2.fade_len ∧
              c2.fade_len - c2.fade_pos ≤ c2.fade_curve.length then
            let fadeSlice :=
              (listSlice c2.fade_curve (c2.fade_len - span - c2.fade_pos)
                (c2.fade_len - c2.fade_pos)).reverse
            let data := List.zipWith (fun s f => s * f) (seg.take span) fadeSlice
            (c2.ring_write data).bind (fun c3 =>
              let fp := c2.fade_pos + span
              procLoop fuel block
                { c3 with
                  fade_pos := fp
                  state := if c2.fade_len ≤ fp then State.Idle else State.FadeOut }
                (idx + span))
          else none
        | State.Idle => some c2
    else some c

/-- Dry/wet mix of the output: each sample becomes
`(1 - dry_wet) * dry + dry_wet * wet`. -/
def mixBlock (dw : α) (dry wet : List α) : List α :=
  List.zipWith (fun m w => (1 - dw) * m + dw * w) dry wet

/-- `Condenser::process_inplace`.  Returns the mutated block and the new
state; `none` models a panic (or, unreachably, exhausted loop fuel). -/
def process_inplace (c : Condenser α) (block : List α) :
    Option (List α × Condenser α) :=
  let n := block.length
  if c.loop_mode then
    (c.ring_read n).map (fun p => (mixBlock c.dry_wet block p.1, p.2))
  else if c.processed_frames < c.warmup_frames then
    let c1 : Condenser α := { c with processed_frames := c.processed_frames + n }
    (c1.ring_read n).map (fun p => (mixBlock c1.dry_wet block p.1, p.2))
  else
    (procLoop (4 * n + 4) block c 0).bind (fun c1 =>
      let c2 : Condenser α := { c1 with processed_frames := c1.processed_frames + n }
      (c2.ring_read n).map (fun p => (mixBlock c2.dry_wet block p.1, p.2)))

/-- `Condenser::get_recorded`: snapshot `buf[..recorded_frames]`; `none`
models the (unreachable) panicking slice when `recorded_frames` exceeds
the buffer length. -/
def get_recorded (c : Condenser α) : Option (List α) :=
  if c.recorded_frames ≤ c.buf.length then some (c.buf.take c.recorded_frames)
  else none

end Condenser

/-- One entry of the fade table: `0.5 - 0.5 * cos(2π t / (fade_len - 1))`
exactly as pushed by the loop in `Condenser::new` (real-valued model of
the `f32` computation). -/
noncomputable def hannEntry (L t : ℕ) : ℝ :=
  1 / 2 - 1 / 2 * Real.cos (2 * Real.pi * t / ((L : ℝ) - 1))

/-- The fade curve table built by `Condenser::new`: `fade_len` entries of
`hannEntry`. -/
noncomputable def fadeCurve (L : ℕ) : List ℝ :=
  (List.range L).map (hannEntry L)

/-- Fade-table computation with the zero denominator made explicit: for
`L = 1` the source divides `0.0` by `fade_len as f32 - 1.0 = 0.0`, which
in IEEE `f32` arithmetic yields `NaN` (and `cos(NaN) = NaN`), so the
single table entry is `NaN`; this is modelled as `none`.  For any other
length the denominator is nonzero and the table is `fadeCurve L`. -/
noncomputable def fadeCurveChecked (L : ℕ) : Option (List ℝ) :=
  if L = 1 then none else some (fadeCurve L)

/-- `Condenser::new`.  Casts `as usize` of an `f32` truncate toward zero
and saturate at `0` for negative values, which on reals is
`Int.toNat ∘ Int.floor`. -/
noncomputable def Condenser.new (fs : ℕ) (threshold_db dry_wet fade_ms rel_ms : ℝ)
    (max_seconds : ℕ) (warmup_sec : ℝ) (loop_mode : Bool) : Condenser ℝ :=
  let th_lin : ℝ := (10 : ℝ) ^ (threshold_db / 20)
  let dw := min (max dry_wet 0) 1
  let warmup_frames := (⌊warmup_sec * (fs : ℝ)⌋).toNat
  let max_frames := fs * max_seconds
  let fade_len := max (⌊fade_ms * (1 / 1000) * (fs : ℝ)⌋).toNat 1
  let rel_coef := Real.exp (-1 / (rel_ms * (1 / 1000) * (fs : ℝ)))
  { fs := fs
    th_lin := th_lin
    dry_wet := dw
    loop_mode := loop_mode
    warmup_frames := warmup_frames
    processed_frames := 0
    max_frames := max_frames
    buf := List.replicate max_frames 0
    write_ptr := 0
    read_ptr := 0
    recorded_frames := 0
    state := State.Idle
    fade_len := fade_len
    fade_curve := fadeCurve fade_len
    fade_pos := 0
    rel_coef := rel_coef
    env := 0 }

/-- State invariant carried by every reachable `Condenser` (of positive
capacity): buffer length matches capacity, the write cursor is inside
the ring, the recorded length is at most capacity, the read cursor is
inside the recorded span, the fade progress is inside the table, and a
mid-fade controller always has table entries left. -/
def WF (c : Condenser α) : Prop :=
  c.buf.length = c.max_frames ∧
  c.write_ptr < c.max_frames ∧
  c.recorded_frames ≤ c.max_frames ∧
  (c.recorded_frames = 0 → c.read_ptr = 0) ∧
  (c.recorded_frames ≠ 0 → c.read_ptr < c.recorded_frames) ∧
  c.fade_pos ≤ c.fade_len ∧
  c.fade_curve.length = c.fade_len ∧
  1 ≤ c.fade_len ∧
  ((c.state = State.FadeIn ∨ c.state = State.FadeOut) → c.fade_pos < c.fade_len)

instance (c : Condenser α) : Decidable (WF c) := by
  unfold WF; infer_instance

/-- Read result predicted by the spec sentence for `ring_read`: sample
`i` is `buf[(read_ptr + i) mod recorded_frames]`.
Modelled from the spec: the wrap-modulo-`recorded_frames` description of
`read(n)` in the circular-store contract. -/
def specRead (c : Condenser α) (n : ℕ) : List α :=
  (List.range n).map (fun i => c.buf.getD ((c.read_ptr + i) % c.recorded_frames) 0)

/-- Termination rank of a controller phase inside one `process_inplace`
loop pass: every iteration either consumes at least one sample or
strictly lowers this rank. -/
def rank : State → ℕ
  | State.FadeIn => 3
  | State.Record => 2
  | State.FadeOut => 1
  | State.Idle => 0

/-- Fields of the engine state that the `process_inplace` segment loop
never changes (configuration, counters it does not own, buffer length),
together with monotonicity of the recorded length. -/
def Keep (c c' : Condenser α) : Prop :=
  c'.fs = c.fs ∧ c'.th_lin = c.th_lin ∧ c'.dry_wet = c.dry_wet ∧
  c'.loop_mode = c.loop_mode ∧ c'.warmup_frames = c.warmup_frames ∧
  c'.processed_frames = c.processed_frames ∧ c'.max_frames = c.max_frames ∧
  c'.buf.length = c.buf.length ∧ c'.read_ptr = c.read_ptr ∧
  c'.fade_len = c.fade_len ∧ c'.fade_curve = c.fade_curve ∧
  c'.rel_coef = c.rel_coef ∧ c.recorded_frames ≤ c'.recorded_frames

/-- Concrete rational-valued engine state used by executable witnesses:
an empty well-formed store of capacity `maxf`. -/
def qStore (maxf : ℕ) (lm : Bool) : Condenser ℚ :=
  { fs := 1
    th_lin := 1 / 2
    dry_wet := 1
    loop_mode := lm
    warmup_frames := 0
    processed_frames := 0
    max_frames := maxf
    buf := List.replicate maxf 0
    write_ptr := 0
    read_ptr := 0
    recorded_frames := 0
    state := State.Idle
    fade_len := 2
    fade_curve := [0, 1]
    fade_pos := 0
    rel_coef := 1 / 2
    env := 0 }

/-- Capacity-4 store holding a single recorded sample `1.0` (the state
reached from the empty store by `ring_write(&[1.0])`). -/
def qWrap : Condenser ℚ :=
  { qStore 4 false with buf := [1, 0, 0, 0], write_ptr := 1, recorded_frames := 1 }

/-- Loop-mode store pre-seeded with three recorded samples. -/
def qLoop : Condenser ℚ :=
  { qStore 4 true with buf := [1, 2, 3, 0], recorded_frames := 3 }

/-- Store still inside its warmup window. -/
def qWarm : Condenser ℚ :=
  { qStore 4 false with warmup_frames := 3 }

/-- Degenerate capacity-zero store (`max_frames = 0`). -/
def qZero : Condenser ℚ :=
  qStore 0 false

/-- The engine built by the reference-scenario configuration
`new(10, -60.0, 1.0, 300.0, 10.0, 10, 0.0, false)`, with every derived
coefficient evaluated (`10^(-3) = 1/1000`, `fade_len = 3`,
`fade_curve = [0,1,0]`, `rel_coef = exp(-10)`). -/
noncomputable def rA0 : Condenser ℝ :=
  { fs := 10
    th_lin := 1 / 1000
    dry_wet := 1
    loop_mode := false
    warmup_frames := 0
    processed_frames := 0
    max_frames := 100
    buf := List.replicate 100 0
    write_ptr := 0
    read_ptr := 0
    recorded_frames := 0
    state := State.Idle
    fade_len := 3
    fade_curve := [0, 1, 0]
    fade_pos := 0
    rel_coef := Real.exp (-10)
    env := 0 }

/-- State of the reference scenario after the segment loop of the first
block `[1,1,1]`: the fade-in wrote `[0,1,0]` and the controller reached
`Record`. -/
noncomputable def rA1 : Condenser ℝ :=
  { rA0 with
    buf := [0, 1, 0] ++ List.replicate 97 0
    write_ptr := 3
    recorded_frames := 3
    state := State.Record
    fade_pos := 3
    env := 1 }

/-- State of the reference scenario after processing the first block
(the unconditional read advanced nothing visible: `read_ptr` wrapped to
`0`). -/
noncomputable def rA2 : Condenser ℝ :=
  { rA1 with processed_frames := 3 }

/-- State after the segment loop of the second block `[0,0,0]`: the
envelope decayed below threshold, one `Record -> FadeOut` transition and
a complete 3-sample fade-out wrote `[0,0,0]`, ending `Idle`. -/
noncomputable def rA3 : Condenser ℝ :=
  { rA2 with
    buf := [0, 1, 0, 0, 0, 0] ++ List.replicate 94 0
    write_ptr := 6
    recorded_frames := 6
    state := State.Idle
    fade_pos := 3
    env := Real.exp (-10) ^ 3 * Real.exp (-10) ^ 3 }

/-- Final state of the reference scenario after the second block. -/
noncomputable def rA4 : Condenser ℝ :=
  { rA3 with processed_frames := 6, read_ptr := 3 }

/-- The engine built by `new(2, -60.0, 1.0, 1500.0, 10.0, 2, 0.0, false)`:
capacity `4` frames, `fade_len = 3`, `rel_coef = exp(-50)`. -/
noncomputable def rB0 : Condenser ℝ :=
  { fs := 2
    th_lin := 1 / 1000
    dry_wet := 1
    loop_mode := false
    warmup_frames := 0
    processed_frames := 0
    max_frames := 4
    buf := List.replicate 4 0
    write_ptr := 0
    read_ptr := 0
    recorded_frames := 0
    state := State.Idle
    fade_len := 3
    fade_curve := [0, 1, 0]
    fade_pos := 0
    rel_coef := Real.exp (-50)
    env := 0 }

/-- State of the capacity-4 engine after processing one loud block
`[1,1,1]`: three recorded frames, write cursor at `3`, controller in
`Record`. -/
noncomputable def rB1 : Condenser ℝ :=
  { rB0 with
    buf := [0, 1, 0, 0]
    write_ptr := 3
    recorded_frames := 3
    state := State.Record
    fade_pos := 3
    processed_frames := 3
    env := 1 }

section ListLemmas

theorem listWrite_length {buf : List α} {s : ℕ} {data : List α}
    (h : s + data.length ≤ buf.length) :
    (listWrite buf s data).length = buf.length := by
  simp only [listWrite, List.length_append, List.length_take, List.length_drop]
  omega

theorem listSlice_length (buf : List α) (s e : ℕ) (h : e ≤ buf.length) :
    (listSlice buf s e).length = e - s := by
  simp only [listSlice, List.length_drop, List.length_take]
  omega

theorem listSlice_getElem (buf : List α) (s e n : ℕ)
    (hn : n < (listSlice buf s e).length) (h2 : s + n < buf.length) :
    (listSlice buf s e).get ⟨n, hn⟩ = buf.getD (s + n) 0 := by
  have h1 : n < ((buf.take e).drop s).length := hn
  show ((buf.take e).drop s)[n] = buf.getD (s + n) 0
  rw [List.getElem_drop, List.getElem_take, List.getD_eq_getElem buf 0 h2]

end ListLemmas

section RingLemmas

/-- `ring_write` succeeds on any write of at most `max_frames` samples
into a well-formed positive-capacity store, changing only the buffer,
the write cursor and the recorded length; the recorded length never
decreases and stays at most the capacity. -/
theorem ring_write_wf (c : Condenser α) (data : List α)
    (hbuf : c.buf.length = c.max_frames) (hwp : c.write_ptr < c.max_frames)
    (hrec : c.recorded_frames ≤ c.max_frames)
    (hn : data.length ≤ c.max_frames) :
    ∃ B W R, c.ring_write data =
        some { c with buf := B, write_ptr := W, recorded_frames := R } ∧
      B.length = c.buf.length ∧ W < c.max_frames ∧
      c.recorded_frames ≤ R ∧ R ≤ c.max_frames := by
  by_cases hlm : c.loop_mode
  · refine ⟨c.buf, c.write_ptr, c.recorded_frames, ?_, rfl, hwp, le_refl _, hrec⟩
    have h : c.ring_write data = some c := by simp [Condenser.ring_write, hlm]
    rw [h]
  · have hmz : c.max_frames ≠ 0 := by omega
    have hmpos : 0 < c.max_frames := by omega
    by_cases he : c.write_ptr + data.length ≤ c.max_frames
    · refine ⟨listWrite c.buf c.write_ptr data,
        (c.write_ptr + data.length) % c.max_frames,
        min (max c.recorded_frames (c.write_ptr + data.length)) c.max_frames,
        ?_, ?_, ?_, ?_, ?_⟩
      · simp only [Condenser.ring_write, hlm, if_false, Bool.false_eq_true]
        rw [if_pos he, if_pos ⟨by omega, hmz⟩]
      · exact listWrite_length (by omega)
      · exact Nat.mod_lt _ hmpos
      · omega
      · omega
    · refine ⟨listWrite (listWrite c.buf c.write_ptr
          (data.take (c.max_frames - c.write_ptr))) 0
          (data.drop (c.max_frames - c.write_ptr)),
        (c.write_ptr + data.length) % c.max_frames,
        min (max c.recorded_frames (c.write_ptr + data.length)) c.max_frames,
        ?_, ?_, ?_, ?_, ?_⟩
      · simp only [Condenser.ring_write, hlm, if_false, Bool.false_eq_true]
        rw [if_neg he, if_pos ⟨by omega, hbuf, by omega⟩]
      · rw [listWrite_length, listWrite_length]
        · simp only [List.length_take]
          omega
        · rw [listWrite_length]
          · simp only [List.length_drop]
            omega
          · simp only [List.length_take]
            omega
      · exact Nat.mod_lt _ hmpos
      · omega
      · omega

/-- `ring_read` succeeds whenever the store satisfies its read-side
invariants and the request is at most the buffer length; it returns `n`
samples and advances only the read cursor (modulo the recorded length,
when anything has been recorded). -/
theorem ring_read_wf (c : Condenser α) (n : ℕ)
    (h1 : c.recorded_frames ≤ c.buf.length)
    (h2 : c.recorded_frames ≠ 0 → c.read_ptr < c.recorded_frames)
    (h3 : n ≤ c.buf.length) :
    ∃ out, c.ring_read n = some (out,
        { c with read_ptr := if c.recorded_frames = 0 then c.read_ptr
            else (c.read_ptr + n) % c.recorded_frames }) ∧
      out.length = n := by
  by_cases h0 : c.recorded_frames = 0
  · refine ⟨List.replicate n 0, ?_, List.length_replicate n 0⟩
    have h : c.ring_read n = some (List.replicate n 0, c) := by
      simp [Condenser.ring_read, h0]
    rw [h, if_pos h0]
  · have hrp : c.read_ptr < c.recorded_frames := h2 h0
    by_cases he : c.read_ptr + n ≤ c.recorded_frames
    · refine ⟨listSlice c.buf c.read_ptr (c.read_ptr + n), ?_, ?_⟩
      · simp only [Condenser.ring_read, h0, if_false]
        rw [if_pos he, if_pos (by omega)]
      · rw [listSlice_length _ _ _ (by omega)]
        omega
    · refine ⟨listSlice c.buf c.read_ptr c.recorded_frames ++
          listSlice c.buf 0 (n - (c.recorded_frames - c.read_ptr)), ?_, ?_⟩
      · simp only [Condenser.ring_read, h0, if_false]
        rw [if_neg he, if_pos ⟨by omega, h1, by omega⟩]
      · rw [List.length_append, listSlice_length _ _ _ h1, listSlice_length _ _ _ (by omega)]
        omega

end RingLemmas

section ReadSpec

/-- On a store whose read does not wrap past a single tail copy
(`read_ptr + n ≤ 2 * recorded_frames`), `ring_read` returns exactly the
samples predicted by the spec formula `buf[(read_ptr + i) % recorded]`
and advances the read cursor modulo the recorded length. -/
theorem ring_read_spec (c : Condenser α) (n : ℕ)
    (h0 : c.recorded_frames ≠ 0)
    (hrp : c.read_ptr < c.recorded_frames)
    (hbl : c.recorded_frames ≤ c.buf.length)
    (hwrap : c.read_ptr + n ≤ 2 * c.recorded_frames) :
    c.ring_read n = some (specRead c n,
      { c with read_ptr := (c.read_ptr + n) % c.recorded_frames }) := by
  by_cases he : c.read_ptr + n ≤ c.recorded_frames
  · have hout : listSlice c.buf c.read_ptr (c.read_ptr + n) = specRead c n := by
      apply List.ext_getElem
      · rw [listSlice_length _ _ _ (by omega), specRead, List.length_map,
          List.length_range]
        omega
      · intro i hi1 hi2
        have hlen : i < n := by
          have := listSlice_length c.buf c.read_ptr (c.read_ptr + n) (by omega)
          omega
        have hmod : (c.read_ptr + i) % c.recorded_frames = c.read_ptr + i :=
          Nat.mod_eq_of_lt (by omega)
        have hidx : c.read_ptr + i < c.buf.length := by omega
        have hL := listSlice_getElem c.buf c.read_ptr (c.read_ptr + n) i hi1 hidx
        simp only [List.get_eq_getElem] at hL
        rw [hL]
        simp only [specRead, List.getElem_map, List.getElem_range, hmod]
    rw [show c.ring_read n = some (listSlice c.buf c.read_ptr (c.read_ptr + n),
        { c with read_ptr := (c.read_ptr + n) % c.recorded_frames }) from ?_,
      hout]
    simp only [Condenser.ring_read, h0, if_false]
    rw [if_pos he, if_pos (by omega)]
  · have hfirst : c.recorded_frames - c.read_ptr ≤ n := by omega
    have hout : listSlice c.buf c.read_ptr c.recorded_frames ++
        listSlice c.buf 0 (n - (c.recorded_frames - c.read_ptr)) =
        specRead c n := by
      apply List.ext_getElem
      · rw [List.length_append, listSlice_length _ _ _ hbl,
          listSlice_length _ _ _ (by omega), specRead, List.length_map,
          List.length_range]
        omega
      · intro i hi1 hi2
        have hlen : i < n := by
          rw [List.length_append, listSlice_length _ _ _ hbl,
            listSlice_length _ _ _ (by omega)] at hi1
          omega
        simp only [specRead, List.getElem_map, List.getElem_range]
        by_cases hcase : i < c.recorded_frames - c.read_ptr
        · have hleft : i < (listSlice c.buf c.read_ptr c.recorded_frames).length := by
            rw [listSlice_length _ _ _ hbl]; omega
          rw [List.getElem_append_left hleft]
          have hA := listSlice_getElem c.buf c.read_ptr c.recorded_frames i
            hleft (by omega)
          simp only [List.get_eq_getElem] at hA
          rw [hA, Nat.mod_eq_of_lt (by omega)]
        · have hleftlen : (listSlice c.buf c.read_ptr c.recorded_frames).length =
              c.recorded_frames - c.read_ptr := listSlice_length _ _ _ hbl
          have hge : (listSlice c.buf c.read_ptr c.recorded_frames).length ≤ i := by
            omega
          rw [List.getElem_append_right hge]
          have hi3 : i - (listSlice c.buf c.read_ptr c.recorded_frames).length <
              (listSlice c.buf 0 (n - (c.recorded_frames - c.read_ptr))).length := by
            rw [hleftlen, listSlice_length _ _ _ (by omega)]
            omega
          have hB := listSlice_getElem c.buf 0
            (n - (c.recorded_frames - c.read_ptr))
            (i - (listSlice c.buf c.read_ptr c.recorded_frames).length)
            hi3 (by omega)
          simp only [List.get_eq_getElem] at hB
          rw [hB]
          have harith : c.read_ptr + i =
              c.recorded_frames + (i - (c.recorded_frames - c.read_ptr)) := by
            omega
          rw [harith, Nat.add_mod_left,
            Nat.mod_eq_of_lt (by omega), hleftlen]
          congr 1
          omega
    rw [show c.ring_read n = some (listSlice c.buf c.read_ptr c.recorded_frames ++
        listSlice c.buf 0 (n - (c.recorded_frames - c.read_ptr)),
        { c with read_ptr := (c.read_ptr + n) % c.recorded_frames }) from ?_,
      hout]
    simp only [Condenser.ring_read, h0, if_false]
    rw [if_neg he, if_pos ⟨by omega, hbl, by omega⟩]

end ReadSpec

open Condenser

theorem keep_refl (c : Condenser α) : Keep c c := by
  simp [Keep]

theorem keep_trans {c₁ c₂ c₃ : Condenser α} (h1 : Keep c₁ c₂) (h2 : Keep c₂ c₃) :
    Keep c₁ c₃ := by
  obtain ⟨a1, b1, d1, e1, f1, g1, ha1, i1, j1, k1, l1, m1, n1⟩ := h1
  obtain ⟨a2, b2, d2, e2, f2, g2, ha2, i2, j2, k2, l2, m2, n2⟩ := h2
  exact ⟨a2.trans a1, b2.trans b1, d2.trans d1, e2.trans e1, f2.trans f1,
    g2.trans g1, ha2.trans ha1, i2.trans i1, j2.trans j1, k2.trans k1,
    l2.trans l1, m2.trans m1, n1.trans n2⟩

theorem wf_update (c : Condenser α) (B : List α) (W R fp : ℕ) (st : State) (E : α)
    (hwf : WF c)
    (hB : B.length = c.buf.length) (hW : W < c.max_frames)
    (hR1 : c.recorded_frames ≤ R) (hR2 : R ≤ c.max_frames)
    (hfp : fp ≤ c.fade_len)
    (hst : (st = State.FadeIn ∨ st = State.FadeOut) → fp < c.fade_len) :
    WF { c with buf := B, write_ptr := W, recorded_frames := R, state := st, fade_pos := fp, env := E } := by
  obtain ⟨h1, h2, h3, h4, h5, h6, h7, h8, h9⟩ := hwf
  refine ⟨?_, ?_, ?_, ?_, ?_, ?_, ?_, ?_, ?_⟩ <;> dsimp only <;> try omega
  · exact fun h => hst h

theorem keep_update (c : Condenser α) (B : List α) (W R fp : ℕ) (st : State) (E : α)
    (hB : B.length = c.buf.length) (hR : c.recorded_frames ≤ R) :
    Keep c { c with buf := B, write_ptr := W, recorded_frames := R, state := st, fade_pos := fp, env := E } :=
  ⟨rfl, rfl, rfl, rfl, rfl, rfl, rfl, hB, rfl, rfl, rfl, rfl, hR⟩

theorem procLoop_wf (block : List α) :
    ∀ (fuel : ℕ) (c : Condenser α) (idx : ℕ),
      WF c → block.length ≤ c.max_frames → idx ≤ block.length →
      4 * (block.length - idx) + rank c.state < fuel →
      ∃ c', procLoop fuel block c idx = some c' ∧ WF c' ∧ Keep c c' := by
  intro fuel
  induction fuel with
  | zero =>
    intro c idx _ _ _ hfuel
    omega
  | succ fuel ih =>
    intro c idx hwf hb hidx hfuel
    by_cases hi : idx < block.length
    case neg =>
      refine ⟨c, ?_, hwf, keep_refl c⟩
      simp [procLoop, hi]
    case pos =>
    have hwf' := hwf
    obtain ⟨hbuf, hwp, hrec, hrp0, hrppos, hfpos, hcurv, hflen, hfade⟩ := hwf'
    cases hst : c.state with
    | Idle =>
      by_cases htr : c.th_lin < envStep c (block.drop idx) (block.length - idx)
      case neg =>
        refine ⟨{ c with env := envStep c (block.drop idx) (block.length - idx) },
          ?_, ?_, ?_⟩
        · simp only [procLoop]
          rw [if_pos hi]
          simp [hst, htr]
        · unfold WF at hwf ⊢
          simpa using hwf
        · simp [Keep]
      case pos =>
        have hremain : 1 ≤ block.length - idx := by omega
        have hspan1 : 1 ≤ min (block.length - idx) c.fade_len := by omega
        have hguard : min (block.length - idx) c.fade_len ≤ c.fade_curve.length := by
          omega
        have hgoal : procLoop (fuel + 1) block c idx =
            (Condenser.ring_write
                { c with
                  env := envStep c (block.drop idx) (block.length - idx)
                  state := State.FadeIn
                  fade_pos := 0 }
                (List.zipWith (fun s f => s * f)
                  ((block.drop idx).take (min (block.length - idx) c.fade_len))
                  (listSlice c.fade_curve 0 (min (block.length - idx) c.fade_len)))).bind
              (fun c3 =>
                procLoop fuel block
                  { c3 with
                    fade_pos := min (block.length - idx) c.fade_len
                    state := if c.fade_len ≤ min (block.length - idx) c.fade_len
                      then State.Record else State.FadeIn }
                  (idx + min (block.length - idx) c.fade_len)) := by
          simp only [procLoop]
          rw [if_pos hi]
          simp [hst, htr, hguard]
        obtain ⟨B, W, R, hw, hBlen, hWlt, hRmono, hRle⟩ :=
          ring_write_wf
            { c with
              env := envStep c (block.drop idx) (block.length - idx)
              state := State.FadeIn
              fade_pos := 0 }
            (List.zipWith (fun s f => s * f)
              ((block.drop idx).take (min (block.length - idx) c.fade_len))
              (listSlice c.fade_curve 0 (min (block.length - idx) c.fade_len)))
            hbuf hwp hrec
            (by
              rw [List.length_zipWith, List.length_take, List.length_drop,
                listSlice_length _ _ _ (by omega)]
              dsimp only
              omega)
        rw [hw] at hgoal
        simp only [Option.some_bind] at hgoal
        obtain ⟨c', hrun, hwfc', hkeep⟩ := ih
          { { c with
                env := envStep c (block.drop idx) (block.length - idx)
                state := State.FadeIn
                fade_pos := 0 } with
            buf := B
            write_ptr := W
            recorded_frames := R
            fade_pos := min (block.length - idx) c.fade_len
            state := if c.fade_len ≤ min (block.length - idx) c.fade_len
              then State.Record else State.FadeIn }
          (idx + min (block.length - idx) c.fade_len)
          (by
            refine wf_update c B W R (min (block.length - idx) c.fade_len) _ _
              hwf hBlen hWlt hRmono hRle (by omega) ?_
            intro hcase
            rcases hcase with hcase | hcase <;> revert hcase <;>
              split <;> intro hcase <;> first | omega | simp_all)
          (by simpa using hb)
          (by omega)
          (by
            rw [hst] at hfuel
            simp only [rank] at hfuel
            split <;> simp only [rank] <;> omega)
        refine ⟨c', hgoal.trans hrun, hwfc', ?_⟩
        exact keep_trans
          (keep_update c B W R (min (block.length - idx) c.fade_len) _ _ hBlen hRmono)
          hkeep
    | FadeIn =>
      have hlt : c.fade_pos < c.fade_len := hfade (Or.inl hst)
      have hspan1 : 1 ≤ min (block.length - idx) (c.fade_len - c.fade_pos) := by
        omega
      have hguard : c.fade_pos + min (block.length - idx) (c.fade_len - c.fade_pos) ≤
          c.fade_curve.length := by
        omega
      have hgoal : procLoop (fuel + 1) block c idx =
          (Condenser.ring_write
              { c with env := envStep c (block.drop idx) (block.length - idx) }
              (List.zipWith (fun s f => s * f)
                ((block.drop idx).take
                  (min (block.length - idx) (c.fade_len - c.fade_pos)))
                (listSlice c.fade_curve c.fade_pos
                  (c.fade_pos + min (block.length - idx) (c.fade_len - c.fade_pos))))).bind
            (fun c3 =>
              procLoop fuel block
                { c3 with
                  fade_pos := c.fade_pos +
                    min (block.length - idx) (c.fade_len - c.fade_pos)
                  state := if c.fade_len ≤ c.fade_pos +
                      min (block.length - idx) (c.fade_len - c.fade_pos)
                    then State.Record else State.FadeIn }
                (idx + min (block.length - idx) (c.fade_len - c.fade_pos))) := by
        simp only [procLoop]
        rw [if_pos hi]
        simp [hst, hguard]
      obtain ⟨B, W, R, hw, hBlen, hWlt, hRmono, hRle⟩ :=
        ring_write_wf
          { c with env := envStep c (block.drop idx) (block.length - idx) }
          (List.zipWith (fun s f => s * f)
            ((block.drop idx).take
              (min (block.length - idx) (c.fade_len - c.fade_pos)))
            (listSlice c.fade_curve c.fade_pos
              (c.fade_pos + min (block.length - idx) (c.fade_len - c.fade_pos))))
          hbuf hwp hrec
          (by
            rw [List.length_zipWith, List.length_take, List.length_drop,
              listSlice_length _ _ _ (by omega)]
            dsimp only
            omega)
      rw [hw] at hgoal
      simp only [Option.some_bind] at hgoal
      obtain ⟨c', hrun, hwfc', hkeep⟩ := ih
        { { c with env := envStep c (block.drop idx) (block.length - idx) } with
          buf := B
          write_ptr := W
          recorded_frames := R
          fade_pos := c.fade_pos + min (block.length - idx) (c.fade_len - c.fade_pos)
          state := if c.fade_len ≤ c.fade_pos +
              min (block.length - idx) (c.fade_len - c.fade_pos)
            then State.Record else State.FadeIn }
        (idx + min (block.length - idx) (c.fade_len - c.fade_pos))
        (by
          refine wf_update c B W R
            (c.fade_pos + min (block.length - idx) (c.fade_len - c.fade_pos)) _ _
            hwf hBlen hWlt hRmono hRle (by omega) ?_
          intro hcase
          rcases hcase with hcase | hcase <;> revert hcase <;>
            split <;> intro hcase <;> first | omega | simp_all)
        (by simpa using hb)
        (by omega)
        (by
          rw [hst] at hfuel
          simp only [rank] at hfuel
          split <;> simp only [rank] <;> omega)
      refine ⟨c', hgoal.trans hrun, hwfc', ?_⟩
      exact keep_trans
        (keep_update c B W R
          (c.fade_pos + min (block.length - idx) (c.fade_len - c.fade_pos)) _ _
          hBlen hRmono)
        hkeep
    | Record =>
      by_cases htr : c.th_lin < envStep c (block.drop idx) (block.length - idx)
      case pos =>
        have hgoal : procLoop (fuel + 1) block c idx =
            Condenser.ring_write
              { c with env := envStep c (block.drop idx) (block.length - idx) }
              (block.drop idx) := by
          simp only [procLoop]
          rw [if_pos hi]
          simp [hst, htr]
        obtain ⟨B, W, R, hw, hBlen, hWlt, hRmono, hRle⟩ :=
          ring_write_wf
            { c with env := envStep c (block.drop idx) (block.length - idx) }
            (block.drop idx) hbuf hwp hrec
            (by
              rw [List.length_drop]
              dsimp only
              omega)
        refine ⟨_, hgoal.trans hw, ?_, ?_⟩
        · refine wf_update c B W R c.fade_pos c.state _ hwf hBlen hWlt hRmono hRle
            hfpos hfade
        · exact keep_update c B W R c.fade_pos c.state _ hBlen hRmono
      case neg =>
        have hgoal : procLoop (fuel + 1) block c idx =
            procLoop fuel block
              { c with
                env := envStep c (block.drop idx) (block.length - idx)
                state := State.FadeOut
                fade_pos := 0 }
              idx := by
          simp only [procLoop]
          rw [if_pos hi]
          simp [hst, htr]
        obtain ⟨c', hrun, hwfc', hkeep⟩ := ih
          { c with
            env := envStep c (block.drop idx) (block.length - idx)
            state := State.FadeOut
            fade_pos := 0 }
          idx
          (wf_update c c.buf c.write_ptr c.recorded_frames 0 State.FadeOut _
            hwf rfl hwp (le_refl _) hrec (by omega) (fun _ => by omega))
          (by simpa using hb)
          hidx
          (by
            rw [hst] at hfuel
            simp only [rank] at hfuel ⊢
            omega)
        refine ⟨c', hgoal.trans hrun, hwfc', ?_⟩
        exact keep_trans
          (keep_update c c.buf c.write_ptr c.recorded_frames 0 State.FadeOut _
            rfl (le_refl _))
          hkeep
    | FadeOut =>
      have hlt : c.fade_pos < c.fade_len := hfade (Or.inr hst)
      have hspan1 : 1 ≤ min (block.length - idx) (c.fade_len - c.fade_pos) := by
        omega
      have hg1 : c.fade_pos ≤ c.fade_len := hfpos
      have hg2 : c.fade_len - c.fade_pos ≤ c.fade_curve.length := by omega
      have hgoal : procLoop (fuel + 1) block c idx =
          (Condenser.ring_write
              { c with env := envStep c (block.drop idx) (block.length - idx) }
              (List.zipWith (fun s f => s * f)
                ((block.drop idx).take
                  (min (block.length - idx) (c.fade_len - c.fade_pos)))
                ((listSlice c.fade_curve
                  (c.fade_len - min (block.length - idx) (c.fade_len - c.fade_pos) -
                    c.fade_pos)
                  (c.fade_len - c.fade_pos)).reverse))).bind
            (fun c3 =>
              procLoop fuel block
                { c3 with
                  fade_pos := c.fade_pos +
                    min (block.length - idx) (c.fade_len - c.fade_pos)
                  state := if c.fade_len ≤ c.fade_pos +
                      min (block.length - idx) (c.fade_len - c.fade_pos)
                    then State.Idle else State.FadeOut }
                (idx + min (block.length - idx) (c.fade_len - c.fade_pos))) := by
        simp only [procLoop]
        rw [if_pos hi]
        simp [hst, hg1, hg2]
      obtain ⟨B, W, R, hw, hBlen, hWlt, hRmono, hRle⟩ :=
        ring_write_wf
          { c with env := envStep c (block.drop idx) (block.length - idx) }
          (List.zipWith (fun s f => s * f)
            ((block.drop idx).take
              (min (block.length - idx) (c.fade_len - c.fade_pos)))
            ((listSlice c.fade_curve
              (c.fade_len - min (block.length - idx) (c.fade_len - c.fade_pos) -
                c.fade_pos)
              (c.fade_len - c.fade_pos)).reverse))
          hbuf hwp hrec
          (by
            rw [List.length_zipWith, List.length_take, List.length_drop,
              List.length_reverse, listSlice_length _ _ _ (by omega)]
            dsimp only
            omega)
      rw [hw] at hgoal
      simp only [Option.some_bind] at hgoal
      obtain ⟨c', hrun, hwfc', hkeep⟩ := ih
        { { c with env := envStep c (block.drop idx) (block.length - idx) } with
          buf := B
          write_ptr := W
          recorded_frames := R
          fade_pos := c.fade_pos + min (block.length - idx) (c.fade_len - c.fade_pos)
          state := if c.fade_len ≤ c.fade_pos +
              min (block.length - idx) (c.fade_len - c.fade_pos)
            then State.Idle else State.FadeOut }
        (idx + min (block.length - idx) (c.fade_len - c.fade_pos))
        (by
          refine wf_update c B W R
            (c.fade_pos + min (block.length - idx) (c.fade_len - c.fade_pos)) _ _
            hwf hBlen hWlt hRmono hRle (by omega) ?_
          intro hcase
          rcases hcase with hcase | hcase <;> revert hcase <;>
            split <;> intro hcase <;> first | omega | simp_all)
        (by simpa using hb)
        (by omega)
        (by
          rw [hst] at hfuel
          simp only [rank] at hfuel
          split <;> simp only [rank] <;> omega)
      refine ⟨c', hgoal.trans hrun, hwfc', ?_⟩
      exact keep_trans
        (keep_update c B W R
          (c.fade_pos + min (block.length - idx) (c.fade_len - c.fade_pos)) _ _
          hBlen hRmono)
        hkeep

theorem wf_read_update (c : Condenser α) (n : ℕ) (hwf : WF c) :
    WF { c with read_ptr := if c.recorded_frames = 0 then c.read_ptr
      else (c.read_ptr + n) % c.recorded_frames } := by
  obtain ⟨h1, h2, h3, h4, h5, h6, h7, h8, h9⟩ := hwf
  refine ⟨h1, h2, h3, ?_, ?_, h6, h7, h8, h9⟩ <;> dsimp only <;> intro h0
  · rw [if_pos h0]
    exact h4 h0
  · rw [if_neg h0]
    exact Nat.mod_lt _ (by omega)

theorem wf_processed (c : Condenser α) (k : ℕ) (hwf : WF c) :
    WF { c with processed_frames := k } := hwf

theorem rank_le_three (st : State) : rank st ≤ 3 := by
  cases st <;> simp [rank]

/-- `process_inplace` succeeds on any block of at most `max_frames`
samples from a well-formed state, preserves the invariant and never
shrinks the recorded length; the output block has the input's length. -/
theorem process_inplace_wf (c : Condenser α) (block : List α)
    (hwf : WF c) (hb : block.length ≤ c.max_frames) :
    ∃ out c', c.process_inplace block = some (out, c') ∧ WF c' ∧
      c.recorded_frames ≤ c'.recorded_frames ∧ out.length = block.length := by
  obtain ⟨hbuf, hwp, hrec, hrp0, hrppos, hfpos, hcurv, hflen, hfade⟩ := hwf
  by_cases hlm : c.loop_mode
  · obtain ⟨out0, hr, hlen0⟩ := ring_read_wf c block.length
      (by omega) hrppos (by omega)
    refine ⟨mixBlock c.dry_wet block out0,
      { c with read_ptr := if c.recorded_frames = 0 then c.read_ptr
          else (c.read_ptr + block.length) % c.recorded_frames }, ?_, ?_, ?_, ?_⟩
    · simp only [Condenser.process_inplace]
      rw [if_pos hlm, hr]
      rfl
    · exact wf_read_update c block.length
        ⟨hbuf, hwp, hrec, hrp0, hrppos, hfpos, hcurv, hflen, hfade⟩
    · exact le_refl _
    · rw [mixBlock, List.length_zipWith]
      omega
  · by_cases hwu : c.processed_frames < c.warmup_frames
    · obtain ⟨out0, hr, hlen0⟩ := ring_read_wf
        { c with processed_frames := c.processed_frames + block.length }
        block.length (by dsimp only; omega) (by dsimp only; exact hrppos)
        (by dsimp only; omega)
      refine ⟨mixBlock c.dry_wet block out0,
        { c with
          processed_frames := c.processed_frames + block.length
          read_ptr := if c.recorded_frames = 0 then c.read_ptr
            else (c.read_ptr + block.length) % c.recorded_frames }, ?_, ?_, ?_, ?_⟩
      · simp only [Condenser.process_inplace]
        rw [if_neg hlm, if_pos hwu, hr]
        rfl
      · exact wf_read_update _ block.length
          ⟨hbuf, hwp, hrec, hrp0, hrppos, hfpos, hcurv, hflen, hfade⟩
      · exact le_refl _
      · rw [mixBlock, List.length_zipWith]
        omega
    · obtain ⟨c1, hrun, hwf1, hkeep⟩ := procLoop_wf block (4 * block.length + 4) c 0
        ⟨hbuf, hwp, hrec, hrp0, hrppos, hfpos, hcurv, hflen, hfade⟩ hb
        (by omega)
        (by have := rank_le_three c.state; omega)
      obtain ⟨hbuf1, hwp1, hrec1, hrp01, hrppos1, hfpos1, hcurv1, hflen1, hfade1⟩ :=
        hwf1
      obtain ⟨hk1, hk2, hk3, hk4, hk5, hk6, hk7, hk8, hk9, hk10, hk11, hk12, hk13⟩ :=
        hkeep
      obtain ⟨out0, hr, hlen0⟩ := ring_read_wf
        { c1 with processed_frames := c1.processed_frames + block.length }
        block.length (by dsimp only; omega) (by dsimp only; exact hrppos1)
        (by dsimp only; omega)
      refine ⟨mixBlock c1.dry_wet block out0,
        { c1 with
          processed_frames := c1.processed_frames + block.length
          read_ptr := if c1.recorded_frames = 0 then c1.read_ptr
            else (c1.read_ptr + block.length) % c1.recorded_frames }, ?_, ?_, ?_, ?_⟩
      · simp only [Condenser.process_inplace]
        rw [if_neg hlm, if_neg hwu, hrun]
        simp only [Option.some_bind]
        rw [hr]
        rfl
      · exact wf_read_update _ block.length
          ⟨hbuf1, hwp1, hrec1, hrp01, hrppos1, hfpos1, hcurv1, hflen1, hfade1⟩
      · exact hk13
      · rw [mixBlock, List.length_zipWith]
        omega

section HannLemmas

theorem hannEntry_nonneg (L t : ℕ) : 0 ≤ hannEntry L t := by
  have h := Real.cos_le_one (2 * Real.pi * t / ((L : ℝ) - 1))
  rw [hannEntry]
  linarith

theorem hannEntry_le_one (L t : ℕ) : hannEntry L t ≤ 1 := by
  have h := Real.neg_one_le_cos (2 * Real.pi * t / ((L : ℝ) - 1))
  rw [hannEntry]
  linarith

theorem hannEntry_zero (L : ℕ) : hannEntry L 0 = 0 := by
  rw [hannEntry]
  norm_num

theorem hannEntry_last (L : ℕ) (hL : 2 ≤ L) : hannEntry L (L - 1) = 0 := by
  have hd : ((L : ℝ) - 1) ≠ 0 := by
    have : (2 : ℝ) ≤ (L : ℝ) := by exact_mod_cast hL
    nlinarith
  have hc : ((L - 1 : ℕ) : ℝ) = (L : ℝ) - 1 := by
    have : 1 ≤ L := by omega
    push_cast [this]
    ring
  rw [hannEntry, hc, mul_div_assoc, div_self hd, mul_one, Real.cos_two_pi]
  norm_num

theorem hannEntry_symm (L t : ℕ) (hL : 2 ≤ L) (ht : t ≤ L - 1) :
    hannEntry L (L - 1 - t) = hannEntry L t := by
  have hd : ((L : ℝ) - 1) ≠ 0 := by
    have : (2 : ℝ) ≤ (L : ℝ) := by exact_mod_cast hL
    nlinarith
  have hc : ((L - 1 - t : ℕ) : ℝ) = (L : ℝ) - 1 - t := by
    have h1 : 1 ≤ L := by omega
    have h2 : t ≤ L - 1 := ht
    push_cast [Nat.cast_sub (by omega : t ≤ L - 1), Nat.cast_sub h1]
    ring
  have harg : 2 * Real.pi * ((L : ℝ) - 1 - t) / ((L : ℝ) - 1) =
      2 * Real.pi - 2 * Real.pi * t / ((L : ℝ) - 1) := by
    field_simp
    ring
  rw [hannEntry, hannEntry, hc, harg, Real.cos_two_pi_sub]

theorem hannEntry_mono (L s t : ℕ) (hL : 2 ≤ L) (hst : s ≤ t)
    (ht : 2 * t ≤ L - 1) : hannEntry L s ≤ hannEntry L t := by
  have hd : (0 : ℝ) < (L : ℝ) - 1 := by
    have : (2 : ℝ) ≤ (L : ℝ) := by exact_mod_cast hL
    linarith
  have hts : (s : ℝ) ≤ (t : ℝ) := by exact_mod_cast hst
  have htb : (2 : ℝ) * t ≤ (L : ℝ) - 1 := by
    have h1 : ((2 * t : ℕ) : ℝ) ≤ ((L - 1 : ℕ) : ℝ) := by exact_mod_cast ht
    have h2 : ((L - 1 : ℕ) : ℝ) = (L : ℝ) - 1 := by
      push_cast [Nat.cast_sub (by omega : 1 ≤ L)]
      ring
    push_cast at h1
    linarith [h2 ▸ h1]
  have hx0 : 0 ≤ 2 * Real.pi * s / ((L : ℝ) - 1) := by
    have := Real.pi_pos
    positivity
  have hyp : 2 * Real.pi * t / ((L : ℝ) - 1) ≤ Real.pi := by
    rw [div_le_iff₀ hd]
    have := Real.pi_pos
    nlinarith
  have hxy : 2 * Real.pi * s / ((L : ℝ) - 1) ≤ 2 * Real.pi * t / ((L : ℝ) - 1) := by
    have := Real.pi_pos
    gcongr
  have hcos := Real.cos_le_cos_of_nonneg_of_le_pi hx0 hyp hxy
  rw [hannEntry, hannEntry]
  linarith

theorem fadeCurve_three : fadeCurve 3 = [0, 1, 0] := by
  have h0 : hannEntry 3 0 = 0 := hannEntry_zero 3
  have h1 : hannEntry 3 1 = 1 := by
    have harg : 2 * Real.pi * ((1 : ℕ) : ℝ) / (((3 : ℕ) : ℝ) - 1) = Real.pi := by
      push_cast
      ring
    rw [hannEntry, harg, Real.cos_pi]
    norm_num
  have h2 : hannEntry 3 2 = 0 := by
    have harg : 2 * Real.pi * ((2 : ℕ) : ℝ) / (((3 : ℕ) : ℝ) - 1) =
        2 * Real.pi := by
      push_cast
      ring
    rw [hannEntry, harg, Real.cos_two_pi]
    norm_num
  rw [fadeCurve, show List.range 3 = [0, 1, 2] from rfl]
  simp [h0, h1, h2]

end HannLemmas

section ConstructorEval

theorem new_eval_A : Condenser.new 10 (-60) 1 300 10 10 0 false = rA0 := by
  have hth : (10 : ℝ) ^ ((-60 : ℝ) / 20) = 1 / 1000 := by
    have h : (-60 : ℝ) / 20 = ((-3 : ℤ) : ℝ) := by norm_num
    rw [h, Real.rpow_intCast]
    norm_num
  have hdw : min (max (1 : ℝ) 0) 1 = 1 := by norm_num
  have hwu : (⌊(0 : ℝ) * ((10 : ℕ) : ℝ)⌋).toNat = 0 := by norm_num
  have hfl : max (⌊(300 : ℝ) * (1 / 1000) * ((10 : ℕ) : ℝ)⌋).toNat 1 = 3 := by
    have h : (300 : ℝ) * (1 / 1000) * ((10 : ℕ) : ℝ) = ((3 : ℕ) : ℝ) := by
      norm_num
    rw [h, Int.floor_natCast]
    rfl
  have hrel : -1 / ((10 : ℝ) * (1 / 1000) * ((10 : ℕ) : ℝ)) = -10 := by norm_num
  have hmax : (10 : ℕ) * 10 = 100 := by norm_num
  simp only [Condenser.new, rA0]
  rw [hth, hdw, hwu, hfl, hrel, hmax, fadeCurve_three]

theorem new_eval_B : Condenser.new 2 (-60) 1 1500 10 2 0 false = rB0 := by
  have hth : (10 : ℝ) ^ ((-60 : ℝ) / 20) = 1 / 1000 := by
    have h : (-60 : ℝ) / 20 = ((-3 : ℤ) : ℝ) := by norm_num
    rw [h, Real.rpow_intCast]
    norm_num
  have hdw : min (max (1 : ℝ) 0) 1 = 1 := by norm_num
  have hwu : (⌊(0 : ℝ) * ((2 : ℕ) : ℝ)⌋).toNat = 0 := by norm_num
  have hfl : max (⌊(1500 : ℝ) * (1 / 1000) * ((2 : ℕ) : ℝ)⌋).toNat 1 = 3 := by
    have h : (1500 : ℝ) * (1 / 1000) * ((2 : ℕ) : ℝ) = ((3 : ℕ) : ℝ) := by
      norm_num
    rw [h, Int.floor_natCast]
    rfl
  have hrel : -1 / ((10 : ℝ) * (1 / 1000) * ((2 : ℕ) : ℝ)) = -50 := by norm_num
  have hmax : (2 : ℕ) * 2 = 4 := by norm_num
  simp only [Condenser.new, rB0]
  rw [hth, hdw, hwu, hfl, hrel, hmax, fadeCurve_three]

theorem new_fade_len_one :
    (Condenser.new 10 (-10) 1 1 1 2 0 false).fade_len = 1 := by
  simp only [Condenser.new]
  have h : (1 : ℝ) * (1 / 1000) * ((10 : ℕ) : ℝ) = 1 / 100 := by norm_num
  rw [h]
  have h2 : ⌊(1 : ℝ) / 100⌋ = 0 := by
    rw [Int.floor_eq_zero_iff]
    constructor <;> norm_num
  rw [h2]
  rfl

end ConstructorEval

section ScenarioA

theorem runA_step1 (f : ℕ) :
    Condenser.procLoop (f + 1) [(1 : ℝ), 1, 1] rA0 0 =
      Condenser.procLoop f [(1 : ℝ), 1, 1] rA1 3 := by
  simp only [Condenser.procLoop]
  rw [if_pos (by norm_num : (0 : ℕ) < ([(1 : ℝ), 1, 1]).length)]
  norm_num [rA0, rA1, Condenser.envStep, Condenser.segPeak,
    Condenser.ring_write, listWrite, listSlice, List.drop_replicate]

theorem runA_step2 (f : ℕ) :
    Condenser.procLoop (f + 1) [(1 : ℝ), 1, 1] rA1 3 = some rA1 := by
  simp [Condenser.procLoop]

theorem runA_loop1 : Condenser.procLoop 16 [(1 : ℝ), 1, 1] rA0 0 = some rA1 := by
  have h1 := runA_step1 15
  have h2 := runA_step2 14
  norm_num at h1 h2
  exact h1.trans h2

theorem runA_block1 :
    rA0.process_inplace [(1 : ℝ), 1, 1] = some ([(0 : ℝ), 1, 0], rA2) := by
  simp only [Condenser.process_inplace]
  rw [if_neg (by simp [rA0]), if_neg (by simp [rA0])]
  norm_num
  rw [runA_loop1]
  simp only [Option.some_bind]
  norm_num [rA1, rA2, rA0, Condenser.ring_read, listSlice, Condenser.mixBlock]

theorem exp_neg_ten_cube_lt : Real.exp (-10) ^ 3 < 1 / 1000 := by
  have h1 : Real.exp (-10 : ℝ) ^ 3 = Real.exp (-30) := by
    rw [← Real.exp_nat_mul]
    norm_num
  have h2 : (11 : ℝ) ≤ Real.exp 10 := by
    have := Real.add_one_le_exp (10 : ℝ)
    linarith
  have h3 : Real.exp (30 : ℝ) = Real.exp 10 ^ 3 := by
    rw [← Real.exp_nat_mul]
    norm_num
  have h4 : (1331 : ℝ) ≤ Real.exp 30 := by
    rw [h3]
    calc (1331 : ℝ) = 11 ^ 3 := by norm_num
      _ ≤ Real.exp 10 ^ 3 := pow_le_pow_left₀ (by norm_num) h2 3
  have h5 : Real.exp (-30 : ℝ) * Real.exp 30 = 1 := by
    rw [← Real.exp_add]
    norm_num
  have h6 := Real.exp_pos (-30 : ℝ)
  rw [h1]
  nlinarith

theorem exp_neg_ten_cube_nonneg : ¬ (Real.exp (-10 : ℝ) ^ 3 < 0) := by
  have := Real.exp_pos (-10 : ℝ)
  push_neg
  positivity

theorem runA_step3 (f : ℕ) :
    Condenser.procLoop (f + 1) [(0 : ℝ), 0, 0] rA2 0 =
      Condenser.procLoop f [(0 : ℝ), 0, 0]
        { rA2 with env := Real.exp (-10) ^ 3, state := State.FadeOut, fade_pos := 0 }
        0 := by
  have hlt : ¬ ((1 : ℝ) / 1000 < Real.exp (-10) ^ 3) := by
    push_neg
    exact le_of_lt exp_neg_ten_cube_lt
  have hne : State.Record ≠ State.Idle := by decide
  simp only [Condenser.procLoop]
  rw [if_pos (by norm_num : (0 : ℕ) < ([(0 : ℝ), 0, 0]).length)]
  norm_num [rA2, rA1, rA0, Condenser.envStep, Condenser.segPeak, hlt, hne]

theorem runA_step4 (f : ℕ) :
    Condenser.procLoop (f + 1) [(0 : ℝ), 0, 0]
      { rA2 with env := Real.exp (-10) ^ 3, state := State.FadeOut, fade_pos := 0 }
      0 =
      Condenser.procLoop f [(0 : ℝ), 0, 0] rA3 3 := by
  have hne : State.FadeOut ≠ State.Idle := by decide
  simp only [Condenser.procLoop]
  rw [if_pos (by norm_num : (0 : ℕ) < ([(0 : ℝ), 0, 0]).length)]
  norm_num [rA3, rA2, rA1, rA0, Condenser.envStep, Condenser.segPeak,
    Condenser.ring_write, listWrite, listSlice, List.drop_replicate,
    exp_neg_ten_cube_nonneg, hne]

theorem runA_step5 (f : ℕ) :
    Condenser.procLoop (f + 1) [(0 : ℝ), 0, 0] rA3 3 = some rA3 := by
  simp [Condenser.procLoop]

theorem runA_loop2 : Condenser.procLoop 16 [(0 : ℝ), 0, 0] rA2 0 = some rA3 := by
  have h1 := runA_step3 15
  have h2 := runA_step4 14
  have h3 := runA_step5 13
  norm_num at h1 h2 h3
  exact (h1.trans h2).trans h3

theorem runA_block2 :
    rA2.process_inplace [(0 : ℝ), 0, 0] = some ([(0 : ℝ), 1, 0], rA4) := by
  simp only [Condenser.process_inplace]
  rw [if_neg (by simp [rA2, rA1, rA0]), if_neg (by simp [rA2, rA1, rA0])]
  norm_num
  rw [runA_loop2]
  simp only [Option.some_bind]
  norm_num [rA4, rA3, rA2, rA1, rA0, Condenser.ring_read, listSlice,
    Condenser.mixBlock]

theorem recorded_rA2 : rA2.get_recorded = some [(0 : ℝ), 1, 0] := by
  norm_num [Condenser.get_recorded, rA2, rA1, rA0]

theorem recorded_rA4 : rA4.get_recorded = some [(0 : ℝ), 1, 0, 0, 0, 0] := by
  norm_num [Condenser.get_recorded, rA4, rA3, rA2, rA1, rA0]

end ScenarioA

section ScenarioB

theorem runB_step1 (f : ℕ) :
    Condenser.procLoop (f + 1) [(1 : ℝ), 1, 1] rB0 0 =
      Condenser.procLoop f [(1 : ℝ), 1, 1]
        { rB0 with
          buf := [0, 1, 0, 0]
          write_ptr := 3
          recorded_frames := 3
          state := State.Record
          fade_pos := 3
          env := 1 }
        3 := by
  simp only [Condenser.procLoop]
  rw [if_pos (by norm_num : (0 : ℕ) < ([(1 : ℝ), 1, 1]).length)]
  norm_num [rB0, Condenser.envStep, Condenser.segPeak,
    Condenser.ring_write, listWrite, listSlice, List.drop_replicate]

theorem runB_step2 (f : ℕ) :
    Condenser.procLoop (f + 1) [(1 : ℝ), 1, 1]
      { rB0 with
        buf := [0, 1, 0, 0]
        write_ptr := 3
        recorded_frames := 3
        state := State.Record
        fade_pos := 3
        env := 1 }
      3 =
      some
        { rB0 with
          buf := [0, 1, 0, 0]
          write_ptr := 3
          recorded_frames := 3
          state := State.Record
          fade_pos := 3
          env := 1 } := by
  simp [Condenser.procLoop]

theorem runB_loop1 :
    Condenser.procLoop 16 [(1 : ℝ), 1, 1] rB0 0 =
      some
        { rB0 with
          buf := [0, 1, 0, 0]
          write_ptr := 3
          recorded_frames := 3
          state := State.Record
          fade_pos := 3
          env := 1 } := by
  have h1 := runB_step1 15
  have h2 := runB_step2 14
  norm_num at h1 h2
  exact h1.trans h2

theorem runB_block1 :
    rB0.process_inplace [(1 : ℝ), 1, 1] = some ([(0 : ℝ), 1, 0], rB1) := by
  simp only [Condenser.process_inplace]
  rw [if_neg (by simp [rB0]), if_neg (by simp [rB0])]
  norm_num
  rw [runB_loop1]
  simp only [Option.some_bind]
  norm_num [rB1, rB0, Condenser.ring_read, listSlice, Condenser.mixBlock]

theorem runB_loop2_none (f : ℕ) :
    Condenser.procLoop (f + 1) [(2 : ℝ), 2, 2, 2, 2, 2] rB1 0 = none := by
  have hne : State.Record ≠ State.Idle := by decide
  simp only [Condenser.procLoop]
  rw [if_pos (by norm_num : (0 : ℕ) < ([(2 : ℝ), 2, 2, 2, 2, 2]).length)]
  norm_num [rB1, rB0, Condenser.envStep, Condenser.segPeak,
    Condenser.ring_write, hne]

theorem runB_block2_none :
    rB1.process_inplace [(2 : ℝ), 2, 2, 2, 2, 2] = none := by
  have hl := runB_loop2_none 27
  norm_num at hl
  simp only [Condenser.process_inplace]
  rw [if_neg (by simp [rB1, rB0]), if_neg (by simp [rB1, rB0])]
  norm_num
  rw [hl]
  intro a ha
  exact Option.noConfusion ha

end ScenarioB

section Claims

/-- C1: with configuration `(fs 10, -60 dB, dry/wet 1, fade 300 ms,
release 10 ms, capacity 10 s, warmup 0, loop off)`, processing the block
`[1,1,1]` leaves the recorded store `[0,1,0]` and the controller in
`Record`, and a following block `[0,0,0]` leaves the store
`[0,1,0,0,0,0]` and the controller back in `Idle`. -/
theorem claim_C1_scenario_record_and_fade :
    ((Condenser.new 10 (-60) 1 300 10 10 0 false).process_inplace
        [(1 : ℝ), 1, 1]).map (fun p => (p.2.get_recorded, p.2.state)) =
      some (some [(0 : ℝ), 1, 0], State.Record) ∧
    (((Condenser.new 10 (-60) 1 300 10 10 0 false).process_inplace
        [(1 : ℝ), 1, 1]).bind
      (fun p => (p.2.process_inplace [(0 : ℝ), 0, 0]).map
        (fun q => (q.2.get_recorded, q.2.state)))) =
      some (some [(0 : ℝ), 1, 0, 0, 0, 0], State.Idle) := by
  constructor
  · rw [new_eval_A, runA_block1]
    simp only [Option.map_some']
    rw [recorded_rA2]
    rfl
  · rw [new_eval_A, runA_block1]
    simp only [Option.some_bind]
    rw [runA_block2]
    simp only [Option.map_some']
    rw [recorded_rA4]
    rfl

/-- C2 (counterexample): a store with `recorded_frames = 1`,
`read_ptr = 0` and stale data past the recorded span returns
`[1, 1, 0]` for a 3-sample read — the third sample comes from the
unrecorded region `buf[2]`, not from `buf[(0 + 2) mod 1] = buf[0]` as
the claim's formula predicts (`[1, 1, 1]`). -/
theorem claim_C2_counterexample :
    (qWrap.ring_read 3).map Prod.fst = some [(1 : ℚ), 1, 0] ∧
    specRead qWrap 3 = [(1 : ℚ), 1, 1] ∧
    ¬ (qWrap.ring_read 3).map Prod.fst = some (specRead qWrap 3) := by
  refine ⟨by decide, by decide, ?_⟩
  intro h
  rw [show specRead qWrap 3 = [(1 : ℚ), 1, 1] from by decide] at h
  rw [show (qWrap.ring_read 3).map Prod.fst = some [(1 : ℚ), 1, 0] from by
    decide] at h
  simp at h

/-- C2 (amended): for a store with `recorded_frames ≥ 1` and
`read_ptr < recorded_frames`, and any request `n` whose single tail copy
stays inside the recorded span (`read_ptr + n ≤ 2 * recorded_frames`,
i.e. the read wraps at most once), `ring_read` returns exactly the `n`
samples `buf[(read_ptr + i) mod recorded_frames]` and advances
`read_ptr` to `(read_ptr + n) mod recorded_frames`. -/
theorem claim_C2_read_wraps_once (c : Condenser α) (n : ℕ)
    (h0 : c.recorded_frames ≠ 0) (hrp : c.read_ptr < c.recorded_frames)
    (hbl : c.recorded_frames ≤ c.buf.length)
    (hwrap : c.read_ptr + n ≤ 2 * c.recorded_frames) :
    c.ring_read n = some (specRead c n,
      { c with read_ptr := (c.read_ptr + n) % c.recorded_frames }) :=
  ring_read_spec c n h0 hrp hbl hwrap

theorem claim_C2_witness :
    qWrap.ring_read 2 = some (specRead qWrap 2,
      { qWrap with read_ptr := (qWrap.read_ptr + 2) % qWrap.recorded_frames }) :=
  claim_C2_read_wraps_once qWrap 2 (by decide) (by decide) (by decide) (by decide)

/-- C3: the configuration `(fs 10, fade 1 ms)` yields `fade_len = 1`, and
at length 1 the fade-table formula divides by `fade_len - 1 = 0`: in the
`f32` source this produces `NaN` (modelled as `none`), not the single
value `1.0` promised by the spec. -/
theorem claim_C3_fade_len_one_divides_by_zero :
    (Condenser.new 10 (-10) 1 1 1 2 0 false).fade_len = 1 ∧
    fadeCurveChecked 1 = none :=
  ⟨new_fade_len_one, by simp [fadeCurveChecked]⟩

/-- C4 (counterexample): at `fade_len = 3` the table is `[0, 1, 0]` — a
full Hann window that rises and falls back — not a monotone ramp ending
at `1`. -/
theorem claim_C4_counterexample :
    fadeCurve 3 = [(0 : ℝ), 1, 0] ∧
    ¬ (List.Chain' (· ≤ ·) (fadeCurve 3) ∧ (fadeCurve 3).getLast? = some 1) := by
  refine ⟨fadeCurve_three, ?_⟩
  rw [fadeCurve_three]
  rintro ⟨-, hlast⟩
  simp only [List.getLast?, Option.some_inj] at hlast
  norm_num at hlast

/-- C4 (amended): for `fade_len ≥ 2` the table holds `fade_len` values
`0.5 - 0.5 cos(2π t/(fade_len - 1))`, each in `[0, 1]`; it starts at `0`,
ends at `0`, is symmetric about its midpoint, and rises monotonically
over the first half (a full raised-cosine window, not a ramp to `1`). -/
theorem claim_C4_hann_window (L : ℕ) (hL : 2 ≤ L) :
    (∀ t, t < L → 0 ≤ hannEntry L t ∧ hannEntry L t ≤ 1) ∧
    hannEntry L 0 = 0 ∧
    hannEntry L (L - 1) = 0 ∧
    (∀ t, t ≤ L - 1 → hannEntry L (L - 1 - t) = hannEntry L t) ∧
    (∀ s t, s ≤ t → 2 * t ≤ L - 1 → hannEntry L s ≤ hannEntry L t) ∧
    fadeCurve L = (List.range L).map (hannEntry L) :=
  ⟨fun t _ => ⟨hannEntry_nonneg L t, hannEntry_le_one L t⟩,
   hannEntry_zero L,
   hannEntry_last L hL,
   fun t ht => hannEntry_symm L t hL ht,
   fun s t hst ht => hannEntry_mono L s t hL hst ht,
   rfl⟩

theorem claim_C4_witness :
    (0 ≤ hannEntry 4 1 ∧ hannEntry 4 1 ≤ 1) ∧ hannEntry 4 0 = 0 ∧
      hannEntry 4 3 = 0 ∧ hannEntry 4 0 ≤ hannEntry 4 1 := by
  obtain ⟨hb, hz, hl, -, hm, -⟩ := claim_C4_hann_window 4 (by norm_num)
  exact ⟨hb 1 (by norm_num), hz, hl, hm 0 1 (by norm_num) (by norm_num)⟩

/-- C5: on the degenerate capacity (`max_frames = 0`) the reads do
return silence, but `ring_write` panics — slicing `buf[..n]` out of
range for nonempty data, and reducing `end % max_frames` with a zero
modulus even for empty data — instead of completing and recording
nothing. -/
theorem claim_C5_zero_capacity_write_panics :
    qZero.max_frames = 0 ∧
    qZero.ring_write [(1 : ℚ)] = none ∧
    qZero.ring_write [] = none ∧
    qZero.ring_read 2 = some ([(0 : ℚ), 0], qZero) := by
  refine ⟨rfl, ?_, ?_, ?_⟩
  · simp [Condenser.ring_write, qZero, qStore]
  · simp [Condenser.ring_write, qZero, qStore]
  · simp [Condenser.ring_read, qZero, qStore]

/-- C6 (counterexample): from the valid configuration
`new(2, -60 dB, 1.0, 1500 ms, 10 ms, 2 s, 0, loop off)` — capacity 4
frames — one loud block `[1,1,1]` is processed fine, but the reachable
state it leaves panics on the next loud block of 6 samples: the wrapped
`ring_write` slices `buf[..5]` out of a 4-element buffer. -/
theorem claim_C6_counterexample :
    ((Condenser.new 2 (-60) 1 1500 10 2 0 false).process_inplace
        [(1 : ℝ), 1, 1]).isSome = true ∧
    ((Condenser.new 2 (-60) 1 1500 10 2 0 false).process_inplace
        [(1 : ℝ), 1, 1]).bind
      (fun p => p.2.process_inplace [(2 : ℝ), 2, 2, 2, 2, 2]) = none := by
  rw [new_eval_B]
  constructor
  · rw [runB_block1]
    rfl
  · rw [runB_block1]
    simp only [Option.some_bind]
    exact runB_block2_none

/-- C6 (amended): given the clamped-configuration invariant and blocks
(or writes, or reads) no longer than `max_frames`, every core operation
terminates and succeeds: `ring_write`, `ring_read`, `get_recorded` and
`process_inplace` (whose segment loop always exits within its fuel
bound) all return a value and never panic. -/
theorem claim_C6_total_bounded (c : Condenser α) (block data : List α) (n : ℕ)
    (hwf : WF c) (hblock : block.length ≤ c.max_frames)
    (hdata : data.length ≤ c.max_frames) (hn : n ≤ c.max_frames) :
    (c.ring_write data).isSome = true ∧
    (c.ring_read n).isSome = true ∧
    (c.get_recorded).isSome = true ∧
    (c.process_inplace block).isSome = true := by
  obtain ⟨hbuf, hwp, hrec, hrp0, hrppos, hfpos, hcurv, hflen, hfade⟩ := hwf
  refine ⟨?_, ?_, ?_, ?_⟩
  · obtain ⟨B, W, R, hw, -, -, -, -⟩ := ring_write_wf c data hbuf hwp hrec hdata
    rw [hw]
    rfl
  · obtain ⟨out, hr, -⟩ := ring_read_wf c n (by omega) hrppos (by omega)
    rw [hr]
    rfl
  · simp only [Condenser.get_recorded]
    rw [if_pos (by omega)]
    rfl
  · obtain ⟨out, c', hp, -, -, -⟩ := process_inplace_wf c block
      ⟨hbuf, hwp, hrec, hrp0, hrppos, hfpos, hcurv, hflen, hfade⟩ hblock
    rw [hp]
    rfl

theorem claim_C6_witness :
    ((qStore 4 false).ring_write [(1 : ℚ)]).isSome = true ∧
    ((qStore 4 false).ring_read 2).isSome = true ∧
    ((qStore 4 false).get_recorded).isSome = true ∧
    ((qStore 4 false).process_inplace [(1 : ℚ), 1]).isSome = true :=
  claim_C6_total_bounded (qStore 4 false) [1, 1] [1] 2 (by decide) (by decide)
    (by decide) (by decide)

/-- C7: in loop mode `process_inplace` performs only a store read and the
dry/wet mix: the buffer, write cursor, recorded length, controller
state, fade progress, envelope and processed-frame counter are all
unchanged (the result state is `c` with only `read_ptr` advanced), and
the caller's block becomes the dry/wet mix of itself with the samples
read from the store. -/
theorem claim_C7_loop_mode_no_writes (c : Condenser α) (block : List α)
    (hlm : c.loop_mode = true)
    (h1 : c.recorded_frames ≤ c.buf.length)
    (h2 : c.recorded_frames ≠ 0 → c.read_ptr < c.recorded_frames)
    (h3 : block.length ≤ c.buf.length) :
    ∃ wet, c.ring_read block.length = some (wet,
        { c with read_ptr := if c.recorded_frames = 0 then c.read_ptr
            else (c.read_ptr + block.length) % c.recorded_frames }) ∧
      c.process_inplace block = some (Condenser.mixBlock c.dry_wet block wet,
        { c with read_ptr := if c.recorded_frames = 0 then c.read_ptr
            else (c.read_ptr + block.length) % c.recorded_frames }) := by
  obtain ⟨wet, hr, -⟩ := ring_read_wf c block.length h1 h2 h3
  refine ⟨wet, hr, ?_⟩
  simp only [Condenser.process_inplace]
  rw [if_pos hlm, hr]
  rfl

theorem claim_C7_witness :
    ∃ wet, qLoop.ring_read ([(5 : ℚ), 6]).length = some (wet,
        { qLoop with read_ptr := if qLoop.recorded_frames = 0 then qLoop.read_ptr
            else (qLoop.read_ptr + ([(5 : ℚ), 6]).length) % qLoop.recorded_frames }) ∧
      qLoop.process_inplace [(5 : ℚ), 6] =
        some (Condenser.mixBlock qLoop.dry_wet [(5 : ℚ), 6] wet,
          { qLoop with read_ptr := if qLoop.recorded_frames = 0 then qLoop.read_ptr
              else (qLoop.read_ptr + ([(5 : ℚ), 6]).length) % qLoop.recorded_frames }) :=
  claim_C7_loop_mode_no_writes qLoop [(5 : ℚ), 6] (by decide) (by decide)
    (by decide) (by decide)

/-- C8: while the processed-frame counter is below the warmup count
(loop mode off), `process_inplace` skips the gate logic entirely: the
buffer, write cursor, recorded length, controller state, fade progress
and envelope are unchanged regardless of the block's level; only the
processed-frame counter advances (by the block length) and the
unconditional store read plus dry/wet mix still happen. -/
theorem claim_C8_warmup_skips_gate (c : Condenser α) (block : List α)
    (hlm : c.loop_mode = false) (hwu : c.processed_frames < c.warmup_frames)
    (h1 : c.recorded_frames ≤ c.buf.length)
    (h2 : c.recorded_frames ≠ 0 → c.read_ptr < c.recorded_frames)
    (h3 : block.length ≤ c.buf.length) :
    ∃ wet,
      Condenser.ring_read
          { c with processed_frames := c.processed_frames + block.length }
          block.length =
        some (wet,
          { c with
            processed_frames := c.processed_frames + block.length
            read_ptr := if c.recorded_frames = 0 then c.read_ptr
              else (c.read_ptr + block.length) % c.recorded_frames }) ∧
      c.process_inplace block = some (Condenser.mixBlock c.dry_wet block wet,
        { c with
          processed_frames := c.processed_frames + block.length
          read_ptr := if c.recorded_frames = 0 then c.read_ptr
            else (c.read_ptr + block.length) % c.recorded_frames }) := by
  obtain ⟨wet, hr, -⟩ := ring_read_wf
    { c with processed_frames := c.processed_frames + block.length }
    block.length (by dsimp only; exact h1) (by dsimp only; exact h2)
    (by dsimp only; exact h3)
  refine ⟨wet, hr, ?_⟩
  simp only [Condenser.process_inplace]
  rw [if_neg (by simp [hlm]), if_pos hwu, hr]
  rfl

theorem claim_C8_witness :
    ∃ wet,
      Condenser.ring_read
          { qWarm with processed_frames := qWarm.processed_frames + ([(2 : ℚ), 3]).length }
          ([(2 : ℚ), 3]).length =
        some (wet,
          { qWarm with
            processed_frames := qWarm.processed_frames + ([(2 : ℚ), 3]).length
            read_ptr := if qWarm.recorded_frames = 0 then qWarm.read_ptr
              else (qWarm.read_ptr + ([(2 : ℚ), 3]).length) % qWarm.recorded_frames }) ∧
      qWarm.process_inplace [(2 : ℚ), 3] =
        some (Condenser.mixBlock qWarm.dry_wet [(2 : ℚ), 3] wet,
          { qWarm with
            processed_frames := qWarm.processed_frames + ([(2 : ℚ), 3]).length
            read_ptr := if qWarm.recorded_frames = 0 then qWarm.read_ptr
              else (qWarm.read_ptr + ([(2 : ℚ), 3]).length) % qWarm.recorded_frames }) :=
  claim_C8_warmup_skips_gate qWarm [(2 : ℚ), 3] (by decide) (by decide)
    (by decide) (by decide) (by decide)

/-- C9: under `max_frames ≥ 1` and blocks (and writes and reads) no
longer than `max_frames`, construction establishes and every operation
preserves the state invariant `WF` — `write_ptr < max_frames`,
`recorded_frames ≤ max_frames`, `read_ptr < recorded_frames` whenever
anything is recorded (wrap-around is modulo `recorded_frames`, never
`max_frames`), `fade_pos ≤ fade_len` — and the recorded length never
decreases (reads leave it unchanged). -/
theorem claim_C9_invariants :
    (∀ (fs ms : ℕ) (th dw fm rm ws : ℝ) (lm : Bool), 1 ≤ fs → 1 ≤ ms →
      WF (Condenser.new fs th dw fm rm ms ws lm)) ∧
    (∀ (c : Condenser α) (data : List α), WF c → data.length ≤ c.max_frames →
      ∃ c', c.ring_write data = some c' ∧ WF c' ∧
        c.recorded_frames ≤ c'.recorded_frames) ∧
    (∀ (c : Condenser α) (n : ℕ), WF c → n ≤ c.max_frames →
      ∃ out c', c.ring_read n = some (out, c') ∧ WF c' ∧
        c'.recorded_frames = c.recorded_frames) ∧
    (∀ (c : Condenser α) (block : List α), WF c → block.length ≤ c.max_frames →
      ∃ out c', c.process_inplace block = some (out, c') ∧ WF c' ∧
        c.recorded_frames ≤ c'.recorded_frames) := by
  refine ⟨?_, ?_, ?_, ?_⟩
  · intro fs ms th dw fm rm ws lm hfs hms
    refine ⟨?_, ?_, ?_, ?_, ?_, ?_, ?_, ?_, ?_⟩
    · simp [Condenser.new]
    · simp only [Condenser.new]
      exact Nat.mul_pos hfs hms
    · simp [Condenser.new]
    · simp [Condenser.new]
    · simp [Condenser.new]
    · simp [Condenser.new]
    · simp [Condenser.new, fadeCurve]
    · simp only [Condenser.new]
      exact le_max_right _ _
    · simp [Condenser.new]
  · intro c data hwf hdata
    obtain ⟨hbuf, hwp, hrec, hrp0, hrppos, hfpos, hcurv, hflen, hfade⟩ := hwf
    obtain ⟨B, W, R, hw, hBlen, hWlt, hRmono, hRle⟩ :=
      ring_write_wf c data hbuf hwp hrec hdata
    refine ⟨_, hw, ?_, hRmono⟩
    exact wf_update c B W R c.fade_pos c.state c.env
      ⟨hbuf, hwp, hrec, hrp0, hrppos, hfpos, hcurv, hflen, hfade⟩
      hBlen hWlt hRmono hRle hfpos hfade
  · intro c n hwf hn
    obtain ⟨hbuf, hwp, hrec, hrp0, hrppos, hfpos, hcurv, hflen, hfade⟩ := hwf
    obtain ⟨out, hr, hlen⟩ := ring_read_wf c n (by omega) hrppos (by omega)
    refine ⟨out, _, hr, ?_, rfl⟩
    exact wf_read_update c n
      ⟨hbuf, hwp, hrec, hrp0, hrppos, hfpos, hcurv, hflen, hfade⟩
  · intro c block hwf hb
    obtain ⟨out, c', hp, hwf', hmono, hlen⟩ := process_inplace_wf c block hwf hb
    exact ⟨out, c', hp, hwf', hmono⟩

theorem claim_C9_witness :
    WF (Condenser.new 1 0 1 1 1 1 0 false) ∧
    (∃ c', (qStore 4 false).ring_write [(1 : ℚ)] = some c' ∧ WF c' ∧
      (qStore 4 false).recorded_frames ≤ c'.recorded_frames) ∧
    (∃ out c', (qStore 4 false).ring_read 2 = some (out, c') ∧ WF c' ∧
      c'.recorded_frames = (qStore 4 false).recorded_frames) ∧
    (∃ out c', (qStore 4 false).process_inplace [(1 : ℚ), 1] = some (out, c') ∧
      WF c' ∧ (qStore 4 false).recorded_frames ≤ c'.recorded_frames) :=
  ⟨(@claim_C9_invariants ℚ _).1 1 1 0 1 1 1 0 false (le_refl 1) (le_refl 1),
   (@claim_C9_invariants ℚ _).2.1 (qStore 4 false) [1] (by decide) (by decide),
   (@claim_C9_invariants ℚ _).2.2.1 (qStore 4 false) 2 (by decide) (by decide),
   (@claim_C9_invariants ℚ _).2.2.2 (qStore 4 false) [1, 1] (by decide)
     (by decide)⟩

/-- C10 (counterexample): at capacity `0` the only admissible `k` is
`0`, and even the empty round trip fails — `ring_write` of `[]` panics
on `end % max_frames` with a zero modulus, so write-then-read yields a
panic (`none`) rather than the written sequence `[]`. -/
theorem claim_C10_counterexample :
    qZero.max_frames = 0 ∧ qZero.write_ptr = 0 ∧ qZero.read_ptr = 0 ∧
    qZero.recorded_frames = 0 ∧ qZero.loop_mode = false ∧
    ([] : List ℚ).length ≤ qZero.max_frames ∧
    (qZero.ring_write []).bind
      (fun c' => (c'.ring_read ([] : List ℚ).length).map Prod.fst) = none := by
  refine ⟨rfl, rfl, rfl, rfl, rfl, by simp, ?_⟩
  have hw : qZero.ring_write [] = none := by
    simp [Condenser.ring_write, qZero, qStore]
  rw [hw]
  rfl

/-- C10 (amended): for a store of positive capacity, writing
`k ≤ max_frames` samples into an otherwise-empty store (write and read
cursors and recorded length all `0`, loop mode off) and then reading `k`
samples returns exactly the written sequence, in order. -/
theorem claim_C10_round_trip (c : Condenser α) (data : List α)
    (hlm : c.loop_mode = false) (hwp : c.write_ptr = 0) (hrp : c.read_ptr = 0)
    (hrec : c.recorded_frames = 0) (hbuf : c.buf.length = c.max_frames)
    (hmax : 1 ≤ c.max_frames) (hk : data.length ≤ c.max_frames) :
    (c.ring_write data).bind
      (fun c' => (c'.ring_read data.length).map Prod.fst) = some data := by
  have hw : c.ring_write data = some
      { c with
        buf := data ++ c.buf.drop data.length
        write_ptr := data.length % c.max_frames
        recorded_frames := data.length } := by
    simp only [Condenser.ring_write]
    rw [if_neg (by simp [hlm]), hwp]
    rw [if_pos (by omega : 0 + data.length ≤ c.max_frames)]
    rw [if_pos ⟨by omega, by omega⟩]
    rw [hrec]
    simp only [listWrite, List.take_zero, List.nil_append, zero_add,
      Nat.zero_max]
    rw [min_eq_left hk]
  rw [hw]
  simp only [Option.some_bind]
  rcases Nat.eq_zero_or_pos data.length with h0 | h0
  · obtain rfl : data = [] := List.length_eq_zero.mp h0
    simp [Condenser.ring_read]
  · simp only [Condenser.ring_read]
    rw [if_neg (by omega)]
    rw [if_pos (by omega)]
    rw [if_pos (by
      rw [List.length_append, List.length_drop]
      omega)]
    simp only [Option.map_some']
    rw [hrp, listSlice]
    simp only [zero_add, List.drop_zero]
    rw [List.take_left]

theorem claim_C10_witness :
    ((qStore 4 false).ring_write [(3 : ℚ), 7]).bind
      (fun c' => (c'.ring_read ([(3 : ℚ), 7]).length).map Prod.fst) =
      some [(3 : ℚ), 7] :=
  claim_C10_round_trip (qStore 4 false) [3, 7] (by decide) (by decide)
    (by decide) (by decide) (by decide) (by decide) (by decide)

end Claims
